import Mathlib

/-!
Verification of the color-classification and correction-learning core of
`omarchy-image-mover` (`src/omarchy_mover/detector.py`, `themes.py`,
`learning.py`, `config.py`), as a shallow embedding in Lean.

Numeric convention: `rgb_distance` in `detector.py` is
`sqrt((0.3*dr)^2 + (0.59*dg)^2 + (0.11*db)^2)`, a nonnegative real.  All
comparisons the program makes with it (against the thresholds 20 and 35,
and between two distances when selecting a minimum) are order questions,
and squaring then scaling by 10000 is strictly monotone on nonnegative
reals, so we embed the distance as the integer
`sqDist = 900*dr^2 + 3481*dg^2 + 121*db^2 = (10000 * rgb_distance^2)`.
Under this embedding `rgb_distance < 20` is `sqDist < 4000000` and
`rgb_distance < 35` is `sqDist < 12250000`, exactly.
-/

namespace OmarchyMover

/-- An RGB color: the triple of channel intensities `detector.py` works
with (8-bit in practice; the distance is defined on any integers). -/
structure Color where
  r : Int
  g : Int
  b : Int
deriving DecidableEq, Repr

/-- `rgb_distance` (detector.py lines 53-67), squared and scaled by 10000
so it is exact integer arithmetic: weights 0.3, 0.59, 0.11 squared and
scaled give 900, 3481, 121. -/
def sqDist (c1 c2 : Color) : Int :=
  900 * (c1.r - c2.r) ^ 2 + 3481 * (c1.g - c2.g) ^ 2 + 121 * (c1.b - c2.b) ^ 2

/-- The real threshold `rgb_distance < 20` in scaled-square form:
`20^2 * 10000`. -/
def HIGH_SQ : Int := 4000000

/-- The real threshold `rgb_distance < 35` in scaled-square form:
`35^2 * 10000`. -/
def MEDIUM_SQ : Int := 12250000

/-- The learner's similarity radius (`distance < 20`, learning.py line 85)
in scaled-square form; numerically the same constant as `HIGH_SQ`, kept
separate because the source hard-codes the two `20`s independently. -/
def RADIUS_SQ : Int := 4000000

/-- The built-in palette `THEMES` of `themes.py`, in its insertion order
(Python dicts iterate in insertion order). -/
def THEMES : List (String × Color) :=
  [("catppuccin", ⟨30, 30, 46⟩),
   ("catppuccin-latte", ⟨239, 241, 245⟩),
   ("everforest", ⟨43, 51, 57⟩),
   ("gruvbox", ⟨40, 40, 40⟩),
   ("kanagawa", ⟨31, 31, 40⟩),
   ("matte-black", ⟨40, 40, 43⟩),
   ("nord", ⟨46, 52, 64⟩),
   ("osaka-jade", ⟨0, 168, 107⟩),
   ("ristretto", ⟨31, 14, 4⟩),
   ("rose-pine", ⟨25, 23, 36⟩),
   ("tokyo-night", ⟨26, 27, 38⟩)]

/-- One iteration of the loop in `detect_theme` (detector.py lines 74-79):
the accumulator is `none` for the initial state
(`min_dist = inf`, `best_theme = None`; any finite distance beats `inf`),
and `some (best_theme, min_dist)` afterwards; the update fires on a
strictly smaller distance. -/
def detectStep (c : Color) (acc : Option (String × Int)) (e : String × Color) :
    Option (String × Int) :=
  let d := sqDist c e.2
  match acc with
  | none => some (e.1, d)
  | some (t, m) => if d < m then some (e.1, d) else some (t, m)

/-- The loop of `detect_theme` over a palette: fold of `detectStep` from
the initial state. -/
def detectBest (themes : List (String × Color)) (c : Color) :
    Option (String × Int) :=
  themes.foldl (detectStep c) none

/-- The confidence bucketing of `detect_theme` (detector.py lines 82-88)
on the scaled-square distance: `< 20` → high, `< 35` → medium, else low. -/
def confidence_level (d : Int) : String :=
  if d < HIGH_SQ then "high" else if d < MEDIUM_SQ then "medium" else "low"

/-- `detect_theme` (detector.py lines 69-91).  The first two components
model `best_theme` and `min_dist`: `none` stands for the initial
`None` / `inf` pair, which the code would return unchanged on an empty
palette (and `inf` buckets to "low"). -/
def detect_theme (c : Color) : Option String × Option Int × String :=
  match detectBest THEMES c with
  | none => (none, none, "low")
  | some (t, d) => (some t, some d, confidence_level d)

/-- The slice of `Config` the detection claims need: the
`custom_themes` entry of the configuration, as a name-to-color
association list in its JSON order. -/
structure Config where
  custom_themes : List (String × Color)
deriving Repr

/-- `dict.update` on association lists, as `Config.get_all_themes`
(config.py lines 76-81) performs it: keys already in `base` keep their
position and take the updating value; new keys are appended in update
order. -/
def updateAssoc (base upd : List (String × Color)) : List (String × Color) :=
  base.map (fun e =>
    match upd.find? (fun u => u.1 = e.1) with
    | some u => u
    | none => e)
    ++ upd.filter (fun u => base.all (fun e => e.1 ≠ u.1))

/-- `Config.get_all_themes` (config.py lines 76-81): a copy of the
built-in `THEMES` updated with the user's custom themes, custom entries
taking precedence on name collision. -/
def Config.get_all_themes (cfg : Config) : List (String × Color) :=
  updateAssoc THEMES cfg.custom_themes

/-- One correction record of `learning.py`: the dominant color at the time,
the classifier's suggestion, the user's actual choice and the creation
timestamp.  In Python the color may be held as a tuple (fresh records) or
a list (records read back from JSON); both are the same triple of
channels, which is what this field is. -/
structure Correction where
  avg_color : Color
  suggested_theme : String
  actual_theme : String
  timestamp : String
deriving DecidableEq, Repr

/-- The `similar_corrections` list of `ThemeLearner.get_learned_theme`
(learning.py lines 79-89): each correction paired with its distance to the
query color, kept when that distance is under the similarity radius, in
the order of the stored sequence. -/
def similar (corrs : List Correction) (c : Color) : List (Int × Correction) :=
  (corrs.map (fun corr => (sqDist c corr.avg_color, corr))).filter
    (fun p => p.1 < RADIUS_SQ)

/-- `sorted(similar_corrections, key distance)[0]` of learning.py
lines 95-96: Python's sort is stable, so the head of the sorted list is
the first element attaining the minimal distance; this computes that
element directly (an earlier element is kept on ties). -/
def minByFirst : List (Int × Correction) → Option (Int × Correction)
  | [] => none
  | p :: ps =>
    match minByFirst ps with
    | none => some p
    | some q => if p.1 ≤ q.1 then some p else some q

/-- `ThemeLearner.get_learned_theme` (learning.py lines 68-98).  The
early `if not self.corrections: return None` is subsumed: an empty
sequence has an empty `similar` list. -/
def get_learned_theme (corrs : List Correction) (c : Color) (s : String) :
    Option String :=
  match minByFirst (similar corrs c) with
  | none => none
  | some (_, closest) =>
    if closest.suggested_theme = s then some closest.actual_theme else none

/-- `ThemeLearner.adjust_detection` (learning.py lines 100-107).  The
source is `return learned if learned else suggested_theme`: Python
truthiness, under which the empty string is falsy, so a learned theme
that is `""` falls back to the suggestion. -/
def adjust_detection (corrs : List Correction) (c : Color) (s : String) :
    String :=
  match get_learned_theme corrs c s with
  | some t => if t = "" then s else t
  | none => s

/-- `ThemeLearner.record_correction` (learning.py lines 52-66): the
returned Boolean is whether `save()` ran (a persistence write of the
whole sequence); `now` is the timestamp `datetime.now().isoformat()`. -/
def record_correction (corrs : List Correction) (c : Color)
    (suggested actual now : String) : List Correction × Bool :=
  if suggested = actual then (corrs, false)
  else (corrs ++ [⟨c, suggested, actual, now⟩], true)

/-- What `ThemeLearner.load` (learning.py lines 26-38) finds on disk:
the store file is missing, or reading it raised
(malformed JSON, wrong shape), or it parsed to a correction list. -/
inductive LoadResult where
  | missing
  | malformed
  | parsed (corrs : List Correction)
deriving Repr

/-- `ThemeLearner.load`: a missing file and any read/parse failure both
leave an empty in-memory sequence (the `except` arm prints a warning and
sets `[]`); a parsed file installs its corrections.  Totality of this
function is the embedded form of "never raises". -/
def ThemeLearner.load : LoadResult → List Correction
  | .missing => []
  | .malformed => []
  | .parsed corrs => corrs

/-- The dedup key `(tuple(avg_color), suggested_theme, actual_theme)` of
`ThemeLearner.import_data` (learning.py lines 159-170). -/
def dedupKey (corr : Correction) : Color × String × String :=
  (corr.avg_color, corr.suggested_theme, corr.actual_theme)

/-- The merge loop of `ThemeLearner.import_data` (learning.py
lines 164-170): `keys` is the snapshot `existing_keys`, computed once
before the loop and never extended, so entries appended during the loop
do not block later imported entries with the same key. -/
def mergeLoop (keys : List (Color × String × String)) (acc : List Correction) :
    List Correction → List Correction
  | [] => acc
  | corr :: rest =>
    mergeLoop keys (if dedupKey corr ∈ keys then acc else acc ++ [corr]) rest

/-- The `merge=True` branch of `ThemeLearner.import_data` on a
well-formed imported list. -/
def import_merge (existing imported : List Correction) : List Correction :=
  mergeLoop (existing.map dedupKey) existing imported

/-- The merge loop again, over raw imported entries that may be malformed
(`none` stands for a dict on which building the dedup key raises, e.g. a
missing `avg_color`).  The exception aborts the loop and is caught by the
surrounding `except`, which returns `False`; the entries already appended
to `self.corrections` stay.  The Boolean is the function's return
value. -/
def mergeLoopRaw (keys : List (Color × String × String))
    (acc : List Correction) : List (Option Correction) → List Correction × Bool
  | [] => (acc, true)
  | none :: _ => (acc, false)
  | some corr :: rest =>
    mergeLoopRaw keys (if dedupKey corr ∈ keys then acc else acc ++ [corr]) rest

/-- `ThemeLearner.import_data` with `merge=True` (learning.py
lines 150-178) over a fallible file: `none` models a file that cannot be
opened or whose JSON does not parse (the exception fires before any
mutation); `some raw` models a parsed `corrections` list whose entries
may individually be malformed. -/
def import_data_raw (existing : List Correction)
    (file : Option (List (Option Correction))) : List Correction × Bool :=
  match file with
  | none => (existing, false)
  | some raw => mergeLoopRaw (existing.map dedupKey) existing raw

/-- `ThemeLearner.import_data` over a well-formed file, both branches of
the `merge` flag: `merge=True` runs the dedup merge, `merge=False`
replaces the whole sequence with the file's entries
(`self.corrections = imported_corrections`).  A `none` file (unreadable
or unparseable) returns failure with the sequence untouched. -/
def import_data (existing : List Correction)
    (file : Option (List Correction)) (merge : Bool) : List Correction × Bool :=
  match file with
  | none => (existing, false)
  | some imported =>
    if merge then (import_merge existing imported, true)
    else (imported, true)

/-- One correction as it sits in the exported/persisted JSON file
(learning.py lines 137-148): `avg_color` is a JSON array of channel
values. -/
structure JsonCorrection where
  avg_color : List Int
  suggested_theme : String
  actual_theme : String
  timestamp : String
deriving DecidableEq, Repr

/-- Serialization of one correction as `json.dump` writes it: the color
triple becomes the three-element array `[r, g, b]`. -/
def Correction.toJson (corr : Correction) : JsonCorrection :=
  ⟨[corr.avg_color.r, corr.avg_color.g, corr.avg_color.b],
   corr.suggested_theme, corr.actual_theme, corr.timestamp⟩

/-- Reading one stored correction back into the typed model: a
three-element color array is the color triple; any other shape has no
typed representation (`none`). -/
def parseCorrection (j : JsonCorrection) : Option Correction :=
  match j.avg_color with
  | [r, g, b] => some ⟨⟨r, g, b⟩, j.suggested_theme, j.actual_theme, j.timestamp⟩
  | _ => none

/-- `ThemeLearner.export_data` (learning.py lines 137-148): the written
file's `corrections` array, one JSON record per stored correction, in
order. -/
def export_data (corrs : List Correction) : List JsonCorrection :=
  corrs.map Correction.toJson

/-- Reading a whole stored `corrections` array back into the typed
model: all entries must parse. -/
def parseAll : List JsonCorrection → Option (List Correction)
  | [] => some []
  | j :: js =>
    match parseCorrection j, parseAll js with
    | some corr, some rest => some (corr :: rest)
    | _, _ => none

/-- `ThemeLearner.import_data` with `merge=False` at the JSON level: the
file's entries replace the in-memory sequence as they are (the code does
not validate them); an entry whose color array is not a triple has no
typed representation, so the replacement is modelled on files whose
entries all parse — which every exported file's do. -/
def import_replace (existing : List Correction)
    (file : Option (List JsonCorrection)) : List Correction × Bool :=
  match file with
  | none => (existing, false)
  | some raw =>
    match parseAll raw with
    | some corrs => (corrs, true)
    | none => (existing, false)

/-- A pixel of a decoded RGB image (detector.py): channel values are
natural numbers, in practice below 256. -/
structure Pixel where
  r : Nat
  g : Nat
  b : Nat
deriving DecidableEq, Repr

/-- The per-pixel quantization of `get_dominant_color` (detector.py
lines 36-42): each channel rounded down to a multiple of 16
(`channel // 16 * 16`). -/
def quantizePixel (p : Pixel) : Pixel :=
  ⟨p.r / 16 * 16, p.g / 16 * 16, p.b / 16 * 16⟩

/-- `Counter(quantized).most_common(1)[0][0]` (detector.py lines 45-46):
the element of `l` with the greatest multiplicity; on ties, the one whose
first occurrence comes earliest (`Counter` iterates in first-insertion
order and CPython's `most_common(1)` takes the first maximum).  `none` on
an empty list, where the Python indexing raises `IndexError` (caught by
the surrounding `except`).  `mcStep` keeps the best (pixel, multiplicity)
pair seen so far, replacing it only on a strictly greater count, so
iterating the list in order yields the first maximum. -/
def mcStep (cnt : List Pixel) (acc : Option (Pixel × Nat)) (x : Pixel) :
    Option (Pixel × Nat) :=
  match acc with
  | none => some (x, cnt.count x)
  | some (y, c) => if cnt.count x > c then some (x, cnt.count x) else some (y, c)

/-- The most-common element selection described above `mcStep`. -/
def mostCommon (l : List Pixel) : Option Pixel :=
  (l.foldl (mcStep l) none).map Prod.fst

/-- `get_dominant_color` (detector.py lines 21-51) at the pixel level:
`none` input models a decode failure; the pixel list is the image's data
after the `thumbnail((200, 200))` downscale (a pre-processing step whose
resampling the spec leaves unspecified; its output is still 8-bit RGB
pixels).  Success is the most common quantized pixel. -/
def get_dominant_color (pixels : Option (List Pixel)) : Option Pixel :=
  match pixels with
  | none => none
  | some ps => mostCommon (ps.map quantizePixel)

/-- `get_avg_color` (detector.py lines 7-19): the per-channel
integer-truncated average; `none` on decode failure or an empty pixel
list. -/
def get_avg_color (pixels : Option (List Pixel)) : Option Pixel :=
  match pixels with
  | none => none
  | some [] => none
  | some ps =>
    some ⟨(ps.map Pixel.r).sum / ps.length,
          (ps.map Pixel.g).sum / ps.length,
          (ps.map Pixel.b).sum / ps.length⟩

/-! ## Helper lemmas -/

lemma detectStep_go (c : Color) (l : List (String × Color)) :
    ∀ (t0 : String) (m : Int),
      ∃ t d, l.foldl (detectStep c) (some (t0, m)) = some (t, d) ∧ d ≤ m ∧
        (∀ p ∈ l, d ≤ sqDist c p.2) ∧
        ((t = t0 ∧ d = m) ∨ ∃ p ∈ l, p.1 = t ∧ sqDist c p.2 = d) := by
  induction l with
  | nil =>
    intro t0 m
    exact ⟨t0, m, rfl, le_refl m, by simp, Or.inl ⟨rfl, rfl⟩⟩
  | cons e l ih =>
    intro t0 m
    by_cases h : sqDist c e.2 < m
    · have step : (e :: l).foldl (detectStep c) (some (t0, m)) =
          l.foldl (detectStep c) (some (e.1, sqDist c e.2)) := by
        simp [List.foldl_cons, detectStep, h]
      obtain ⟨t, d, hfold, hle, hmin, hatt⟩ := ih e.1 (sqDist c e.2)
      refine ⟨t, d, step ▸ hfold, le_trans hle (le_of_lt h), ?_, ?_⟩
      · intro p hp
        rcases List.mem_cons.mp hp with hpe | hp
        · exact hpe ▸ hle
        · exact hmin p hp
      · rcases hatt with ⟨ht, hd⟩ | ⟨p, hp, h1, h2⟩
        · exact Or.inr ⟨e, List.mem_cons_self e l, ht ▸ rfl, hd ▸ rfl⟩
        · exact Or.inr ⟨p, List.mem_cons_of_mem e hp, h1, h2⟩
    · have step : (e :: l).foldl (detectStep c) (some (t0, m)) =
          l.foldl (detectStep c) (some (t0, m)) := by
        simp [List.foldl_cons, detectStep, h]
      obtain ⟨t, d, hfold, hle, hmin, hatt⟩ := ih t0 m
      refine ⟨t, d, step ▸ hfold, hle, ?_, ?_⟩
      · intro p hp
        rcases List.mem_cons.mp hp with hpe | hp
        · exact hpe ▸ le_trans hle (not_lt.mp h)
        · exact hmin p hp
      · rcases hatt with ⟨ht, hd⟩ | ⟨p, hp, h1, h2⟩
        · exact Or.inl ⟨ht, hd⟩
        · exact Or.inr ⟨p, List.mem_cons_of_mem e hp, h1, h2⟩

lemma detectBest_spec (c : Color) (l : List (String × Color)) (hl : l ≠ []) :
    ∃ t d, detectBest l c = some (t, d) ∧
      (∀ p ∈ l, d ≤ sqDist c p.2) ∧
      ∃ p ∈ l, p.1 = t ∧ sqDist c p.2 = d := by
  match l with
  | [] => exact absurd rfl hl
  | e :: l =>
    obtain ⟨t, d, hfold, hle, hmin, hatt⟩ := detectStep_go c l e.1 (sqDist c e.2)
    have step : detectBest (e :: l) c =
        l.foldl (detectStep c) (some (e.1, sqDist c e.2)) := by
      simp [detectBest, List.foldl_cons, detectStep]
    refine ⟨t, d, step ▸ hfold, ?_, ?_⟩
    · intro p hp
      rcases List.mem_cons.mp hp with hpe | hp
      · exact hpe ▸ hle
      · exact hmin p hp
    · rcases hatt with ⟨ht, hd⟩ | ⟨p, hp, h1, h2⟩
      · exact ⟨e, List.mem_cons_self e l, ht ▸ rfl, hd ▸ rfl⟩
      · exact ⟨p, List.mem_cons_of_mem e hp, h1, h2⟩

lemma sqDist_nonneg (c1 c2 : Color) : 0 ≤ sqDist c1 c2 := by
  unfold sqDist
  positivity

/-- The fixed ordering of confidence labels: a smaller rank is more
confident (high < medium < low). -/
def confRank : String → Nat
  | "high" => 0
  | "medium" => 1
  | _ => 2

/-! ## Claim theorems -/

/-- C9: for every RGB color input, `detect_theme` returns a non-absent
theme name that is a key of the built-in palette, together with a
non-absent (finite) nonnegative minimum distance; the initial
`(None, inf)` state is unreachable at return because `THEMES` is
non-empty. -/
theorem detect_theme_total (c : Color) :
    ∃ p ∈ THEMES, (detect_theme c).1 = some p.1 ∧
      (detect_theme c).2.1 = some (sqDist c p.2) ∧
      0 ≤ sqDist c p.2 ∧
      ∀ q ∈ THEMES, sqDist c p.2 ≤ sqDist c q.2 := by
  obtain ⟨t, d, hbest, hmin, p, hp, hpt, hpd⟩ :=
    detectBest_spec c THEMES (by simp [THEMES])
  have hdt : detect_theme c = (some t, some d, confidence_level d) := by
    unfold detect_theme
    rw [hbest]
  refine ⟨p, hp, ?_, ?_, hpd ▸ sqDist_nonneg c p.2, fun q hq => hpd ▸ hmin q hq⟩
  · rw [hdt, ← hpt]
  · rw [hdt, ← hpd]

/-- C2 (amended): `detect_theme` selects the theme at minimum weighted
distance over the built-in `THEMES` palette only; it takes no palette
argument, so the merged palette of `Config.get_all_themes` plays no part
in the selection. -/
theorem detect_theme_min_over_builtins (c : Color) :
    ∃ p ∈ THEMES, (detect_theme c).1 = some p.1 ∧
      ∀ q ∈ THEMES, sqDist c p.2 ≤ sqDist c q.2 := by
  obtain ⟨t, d, hbest, hmin, p, hp, hpt, hpd⟩ :=
    detectBest_spec c THEMES (by simp [THEMES])
  have hdt : detect_theme c = (some t, some d, confidence_level d) := by
    unfold detect_theme
    rw [hbest]
  exact ⟨p, hp, by rw [hdt, ← hpt], fun q hq => hpd ▸ hmin q hq⟩

/-- C2 counterexample: with the custom theme "mine" at `(200,200,200)`,
the merged palette contains "mine" at distance 0 from the query
`(200,200,200)`, yet `detect_theme` returns the built-in
"catppuccin-latte" at a strictly positive distance: `detect_theme` does
not minimize over the merged palette. -/
theorem detect_theme_ignores_custom_counterexample :
    ("mine", (⟨200, 200, 200⟩ : Color)) ∈
        Config.get_all_themes ⟨[("mine", ⟨200, 200, 200⟩)]⟩ ∧
    (detect_theme ⟨200, 200, 200⟩).1 = some "catppuccin-latte" ∧
    sqDist ⟨200, 200, 200⟩ ⟨200, 200, 200⟩ = 0 ∧
    ¬ (∃ p ∈ Config.get_all_themes ⟨[("mine", ⟨200, 200, 200⟩)]⟩,
        (detect_theme ⟨200, 200, 200⟩).1 = some p.1 ∧
        ∀ q ∈ Config.get_all_themes ⟨[("mine", ⟨200, 200, 200⟩)]⟩,
          sqDist ⟨200, 200, 200⟩ p.2 ≤ sqDist ⟨200, 200, 200⟩ q.2) := by
  decide

/-- C5: the confidence `detect_theme` returns is exactly the threshold
bucketing of the minimum distance (high below 20, medium from 20 up to
35, low from 35, stated on the scaled squared distance where the
thresholds are `20^2*10^4` and `35^2*10^4`), and the bucketing is
monotone: a strictly smaller distance is never less confident. -/
theorem detect_theme_confidence_bucketing :
    (∀ c : Color, ∃ p ∈ THEMES,
        (detect_theme c).2.1 = some (sqDist c p.2) ∧
        (detect_theme c).2.2 = confidence_level (sqDist c p.2) ∧
        ∀ q ∈ THEMES, sqDist c p.2 ≤ sqDist c q.2) ∧
    (∀ d : Int,
        (d < HIGH_SQ → confidence_level d = "high") ∧
        (HIGH_SQ ≤ d → d < MEDIUM_SQ → confidence_level d = "medium") ∧
        (MEDIUM_SQ ≤ d → confidence_level d = "low")) ∧
    (∀ d1 d2 : Int, d1 < d2 →
        confRank (confidence_level d1) ≤ confRank (confidence_level d2)) := by
  refine ⟨?_, ?_, ?_⟩
  · intro c
    obtain ⟨t, d, hbest, hmin, p, hp, hpt, hpd⟩ :=
      detectBest_spec c THEMES (by simp [THEMES])
    have hdt : detect_theme c = (some t, some d, confidence_level d) := by
      unfold detect_theme
      rw [hbest]
    refine ⟨p, hp, ?_, ?_, fun q hq => hpd ▸ hmin q hq⟩
    · rw [hdt, ← hpd]
    · rw [hdt, ← hpd]
  · intro d
    refine ⟨fun h => by simp [confidence_level, h], fun h1 h2 => ?_, fun h => ?_⟩
    · simp [confidence_level, not_lt.mpr h1, h2]
    · have h1 : ¬ d < HIGH_SQ := by
        unfold HIGH_SQ MEDIUM_SQ at *
        omega
      simp [confidence_level, h1, not_lt.mpr h]
  · intro d1 d2 h
    unfold confidence_level HIGH_SQ MEDIUM_SQ
    split_ifs <;> simp [confRank] <;> omega

lemma minByFirst_eq_none {l : List (Int × Correction)} :
    minByFirst l = none ↔ l = [] := by
  cases l with
  | nil => simp [minByFirst]
  | cons p ps =>
    simp only [minByFirst]
    cases h : minByFirst ps with
    | none => simp
    | some q =>
      by_cases hle : p.1 ≤ q.1 <;> simp [hle]

lemma minByFirst_mem {l : List (Int × Correction)} {q : Int × Correction}
    (h : minByFirst l = some q) : q ∈ l := by
  induction l generalizing q with
  | nil => simp [minByFirst] at h
  | cons p ps ih =>
    rw [minByFirst] at h
    cases hm : minByFirst ps with
    | none =>
      rw [hm] at h
      simp at h
      exact h ▸ List.mem_cons_self p ps
    | some r =>
      rw [hm] at h
      by_cases hle : p.1 ≤ r.1
      · simp [hle] at h
        exact h ▸ List.mem_cons_self p ps
      · simp [hle] at h
        exact List.mem_cons_of_mem p (h ▸ ih hm)

lemma minByFirst_min {l : List (Int × Correction)} {q : Int × Correction}
    (h : minByFirst l = some q) : ∀ p ∈ l, q.1 ≤ p.1 := by
  induction l generalizing q with
  | nil => simp [minByFirst] at h
  | cons p ps ih =>
    rw [minByFirst] at h
    cases hm : minByFirst ps with
    | none =>
      rw [hm] at h
      simp at h
      have hps : ps = [] := minByFirst_eq_none.mp hm
      subst hps
      intro x hx
      simp at hx
      subst hx
      exact h ▸ le_refl _
    | some r =>
      rw [hm] at h
      by_cases hle : p.1 ≤ r.1
      · simp [hle] at h
        subst h
        intro x hx
        rcases List.mem_cons.mp hx with hxp | hx
        · exact hxp ▸ le_refl _
        · exact le_trans hle (ih hm x hx)
      · simp [hle] at h
        subst h
        intro x hx
        rcases List.mem_cons.mp hx with hxp | hx
        · exact hxp ▸ le_of_lt (not_le.mp hle)
        · exact ih hm x hx

lemma mem_similar {corrs : List Correction} {c : Color} {d : Int}
    {corr : Correction} :
    (d, corr) ∈ similar corrs c ↔
      corr ∈ corrs ∧ d = sqDist c corr.avg_color ∧ d < RADIUS_SQ := by
  simp [similar, List.mem_filter, List.mem_map, Prod.ext_iff]
  constructor
  · rintro ⟨⟨h1, h2⟩, h3⟩
    exact ⟨h1, h2.symm, h3⟩
  · rintro ⟨h1, h2, h3⟩
    exact ⟨⟨h1, h2.symm⟩, h3⟩

/-- C1 (amended): `get_learned_theme` considers exactly the stored
corrections at weighted distance under 20 from the query color, selects
the nearest of them (the first on ties, from the stable sort), and
returns its `actual_theme` iff its recorded `suggested_theme` equals the
suggestion passed in — both directions: a result is always the nearest
in-radius correction's `actual_theme` with matching `suggested_theme`,
the lookup is absent when no correction is in radius or when the nearest
one's `suggested_theme` differs, and it does return the nearest one's
`actual_theme` whenever its `suggested_theme` matches; `adjust_detection`
returns the learned theme when one is returned and it is non-empty, and
the suggestion unchanged when the lookup is absent or — in general, for
every correction store — when the learned theme is the empty string,
which is falsy in Python. -/
theorem get_learned_theme_spec (corrs : List Correction) (c : Color)
    (s : String) :
    (∀ a, get_learned_theme corrs c s = some a →
      ∃ corr ∈ corrs, sqDist c corr.avg_color < RADIUS_SQ ∧
        corr.suggested_theme = s ∧ corr.actual_theme = a ∧
        ∀ corr2 ∈ corrs, sqDist c corr2.avg_color < RADIUS_SQ →
          sqDist c corr.avg_color ≤ sqDist c corr2.avg_color) ∧
    ((∀ corr ∈ corrs, ¬ sqDist c corr.avg_color < RADIUS_SQ) →
      get_learned_theme corrs c s = none) ∧
    (∀ d cl, minByFirst (similar corrs c) = some (d, cl) →
      cl.suggested_theme ≠ s → get_learned_theme corrs c s = none) ∧
    (∀ d cl, minByFirst (similar corrs c) = some (d, cl) →
      cl.suggested_theme = s →
      get_learned_theme corrs c s = some cl.actual_theme) ∧
    (∀ t, get_learned_theme corrs c s = some t → t ≠ "" →
      adjust_detection corrs c s = t) ∧
    (∀ t, get_learned_theme corrs c s = some t → t = "" →
      adjust_detection corrs c s = s) ∧
    (get_learned_theme corrs c s = none → adjust_detection corrs c s = s) := by
  refine ⟨?_, ?_, ?_, ?_, ?_, ?_, ?_⟩
  · intro a h
    unfold get_learned_theme at h
    cases hm : minByFirst (similar corrs c) with
    | none =>
      rw [hm] at h
      exact absurd h (by simp)
    | some q =>
      obtain ⟨d, cl⟩ := q
      rw [hm] at h
      by_cases hs : cl.suggested_theme = s
      · simp only [hs, if_pos rfl] at h
        have hmem := mem_similar.mp (minByFirst_mem hm)
        obtain ⟨hcl, hd, hrad⟩ := hmem
        refine ⟨cl, hcl, hd ▸ hrad, hs, by simpa using h, ?_⟩
        intro corr2 h2 hrad2
        have h2s : (sqDist c corr2.avg_color, corr2) ∈ similar corrs c :=
          mem_similar.mpr ⟨h2, rfl, hrad2⟩
        have := minByFirst_min hm _ h2s
        exact hd ▸ this
      · simp only [if_neg hs] at h
        exact absurd h (by simp)
  · intro hnone
    have hsim : similar corrs c = [] := by
      apply List.eq_nil_iff_forall_not_mem.mpr
      intro p hp
      obtain ⟨d, corr⟩ := p
      obtain ⟨h1, h2, h3⟩ := mem_similar.mp hp
      exact hnone corr h1 (h2 ▸ h3)
    unfold get_learned_theme
    rw [hsim]
    rfl
  · intro d cl hm hs
    unfold get_learned_theme
    rw [hm]
    simp [hs]
  · intro d cl hm hs
    unfold get_learned_theme
    rw [hm]
    simp [hs]
  · intro t h ht
    unfold adjust_detection
    rw [h]
    simp [ht]
  · intro t h ht
    unfold adjust_detection
    rw [h]
    simp [ht]
  · intro h
    unfold adjust_detection
    rw [h]

/-- C1 counterexample: with the single stored correction
`{color=(0,0,0), suggested="nord", actual=""}`, the lookup at `(0,0,0)`
with suggestion "nord" does return a learned theme (`some ""`), yet
`adjust_detection` returns the suggestion "nord", not that learned theme:
Python's truthiness test treats the empty string like an absent result. -/
theorem adjust_detection_empty_counterexample :
    get_learned_theme [⟨⟨0, 0, 0⟩, "nord", "", "t0"⟩] ⟨0, 0, 0⟩ "nord" =
      some "" ∧
    adjust_detection [⟨⟨0, 0, 0⟩, "nord", "", "t0"⟩] ⟨0, 0, 0⟩ "nord" =
      "nord" ∧
    ("nord" : String) ≠ "" := by
  decide

/-- C7: recording a "correction" whose suggested and actual theme agree
is a no-op — the sequence is unchanged and no persistence write happens —
and only when they differ is the correction appended and the sequence
saved. -/
theorem record_correction_noop_law (corrs : List Correction) (c : Color)
    (t s a now : String) :
    record_correction corrs c t t now = (corrs, false) ∧
    (s ≠ a → record_correction corrs c s a now =
      (corrs ++ [⟨c, s, a, now⟩], true)) := by
  constructor
  · simp [record_correction]
  · intro h
    simp [record_correction, h]

/-- C8: every failing load — a missing store file or malformed content —
yields the empty in-memory correction sequence, and a parsed store
installs its corrections; `ThemeLearner.load` is total, the embedded form
of "loading never propagates a fatal error". -/
theorem load_failure_yields_empty :
    ThemeLearner.load .missing = [] ∧
    ThemeLearner.load .malformed = [] ∧
    ∀ corrs, ThemeLearner.load (.parsed corrs) = corrs :=
  ⟨rfl, rfl, fun _ => rfl⟩

lemma mergeLoop_eq_filter (keys : List (Color × String × String)) :
    ∀ (imported : List Correction) (acc : List Correction),
      mergeLoop keys acc imported =
        acc ++ imported.filter (fun corr => decide (dedupKey corr ∉ keys)) := by
  intro imported
  induction imported with
  | nil =>
    intro acc
    simp [mergeLoop]
  | cons corr rest ih =>
    intro acc
    by_cases h : dedupKey corr ∈ keys
    · simp [mergeLoop, h, ih]
    · simp [mergeLoop, h, ih]

lemma mergeLoopRaw_stops (keys : List (Color × String × String))
    (rest : List (Option Correction)) :
    ∀ (good : List Correction) (acc : List Correction),
      mergeLoopRaw keys acc (good.map some ++ none :: rest) =
        (mergeLoop keys acc good, false) := by
  intro good
  induction good with
  | nil =>
    intro acc
    simp [mergeLoopRaw, mergeLoop]
  | cons g gs ih =>
    intro acc
    simp only [List.map_cons, List.cons_append, mergeLoopRaw, mergeLoop]
    exact ih _

lemma mergeLoopRaw_clean (keys : List (Color × String × String)) :
    ∀ (good : List Correction) (acc : List Correction),
      mergeLoopRaw keys acc (good.map some) = (mergeLoop keys acc good, true) := by
  intro good
  induction good with
  | nil =>
    intro acc
    simp [mergeLoopRaw, mergeLoop]
  | cons g gs ih =>
    intro acc
    simp only [List.map_cons, mergeLoopRaw, mergeLoop]
    exact ih _

/-- C3 (amended): merge-import appends exactly those imported corrections
whose dedup key `(color, suggestedTheme, actualTheme)` does not already
occur among the pre-existing corrections (so exact duplicates of existing
entries are silently dropped, regardless of timestamps); duplicates
inside the imported batch itself are not deduplicated, because the key
snapshot is taken before the loop — only when the imported batch is
itself duplicate-free under the key does a duplicate-free pre-existing
sequence stay duplicate-free after the merge. -/
theorem import_merge_dedup (existing imported : List Correction)
    (h1 : (existing.map dedupKey).Nodup)
    (h2 : (imported.map dedupKey).Nodup) :
    ((import_merge existing imported).map dedupKey).Nodup ∧
    ∀ corr, corr ∈ import_merge existing imported ↔
      corr ∈ existing ∨
        (corr ∈ imported ∧ dedupKey corr ∉ existing.map dedupKey) := by
  have heq := mergeLoop_eq_filter (existing.map dedupKey) imported existing
  constructor
  · rw [import_merge, heq, List.map_append]
    rw [List.nodup_append]
    refine ⟨h1, ?_, ?_⟩
    · exact h2.sublist (List.Sublist.map dedupKey (List.filter_sublist imported))
    · intro k hk1 hk2
      obtain ⟨corr, hcorr, hkey⟩ := List.mem_map.mp hk2
      have := (List.mem_filter.mp hcorr).2
      rw [decide_eq_true_iff] at this
      exact this (hkey ▸ hk1)
  · intro corr
    rw [import_merge, heq, List.mem_append, List.mem_filter]
    simp [decide_eq_true_iff]

/-- C3 counterexample: importing a batch that contains the same
correction twice (same color, suggested and actual theme, different
timestamps) into an empty — hence trivially duplicate-free — sequence
keeps both copies: the merged result has two entries with equal dedup
keys. -/
theorem import_merge_duplicate_counterexample :
    import_merge []
        [⟨⟨0, 0, 0⟩, "a", "b", "t1"⟩, ⟨⟨0, 0, 0⟩, "a", "b", "t2"⟩] =
      [⟨⟨0, 0, 0⟩, "a", "b", "t1"⟩, ⟨⟨0, 0, 0⟩, "a", "b", "t2"⟩] ∧
    (([] : List Correction).map dedupKey).Nodup ∧
    ¬ ((import_merge []
        [⟨⟨0, 0, 0⟩, "a", "b", "t1"⟩,
         ⟨⟨0, 0, 0⟩, "a", "b", "t2"⟩]).map dedupKey).Nodup := by
  decide

/-- C3 witness for `import_merge_dedup`: a concrete merge of one
imported duplicate of the existing entry plus one genuinely new entry. -/
theorem import_merge_dedup_witness :
    ((import_merge [⟨⟨0, 0, 0⟩, "a", "b", "t1"⟩]
        [⟨⟨0, 0, 0⟩, "a", "b", "t2"⟩, ⟨⟨1, 1, 1⟩, "x", "y", "t3"⟩]).map
          dedupKey).Nodup ∧
    ∀ corr, corr ∈ import_merge [⟨⟨0, 0, 0⟩, "a", "b", "t1"⟩]
        [⟨⟨0, 0, 0⟩, "a", "b", "t2"⟩, ⟨⟨1, 1, 1⟩, "x", "y", "t3"⟩] ↔
      corr ∈ [⟨⟨0, 0, 0⟩, "a", "b", "t1"⟩] ∨
        (corr ∈ [⟨⟨0, 0, 0⟩, "a", "b", "t2"⟩, ⟨⟨1, 1, 1⟩, "x", "y", "t3"⟩] ∧
          dedupKey corr ∉ [⟨⟨0, 0, 0⟩, "a", "b", "t1"⟩].map dedupKey) :=
  import_merge_dedup [⟨⟨0, 0, 0⟩, "a", "b", "t1"⟩]
    [⟨⟨0, 0, 0⟩, "a", "b", "t2"⟩, ⟨⟨1, 1, 1⟩, "x", "y", "t3"⟩]
    (by decide) (by decide)

/-- C4 (amended): an unreadable or unparseable import file reports
failure and leaves the in-memory sequence exactly as it was; with
merge=true, a malformed correction entry also reports failure, but the
well-formed entries preceding it have already been merged in, so the
in-memory sequence is the merge of that prefix, not necessarily its
pre-call value (on a fully well-formed batch the raw run equals the
clean merge and reports success). -/
theorem import_malformed_partial (existing good : List Correction)
    (rest : List (Option Correction)) (merge : Bool) :
    import_data existing none merge = (existing, false) ∧
    import_data_raw existing none = (existing, false) ∧
    import_data_raw existing (some (good.map some ++ none :: rest)) =
      (import_merge existing good, false) ∧
    import_data_raw existing (some (good.map some)) =
      (import_merge existing good, true) := by
  refine ⟨rfl, rfl, ?_, ?_⟩
  · rw [import_data_raw, import_merge]
    exact mergeLoopRaw_stops _ rest good existing
  · rw [import_data_raw, import_merge]
    exact mergeLoopRaw_clean _ good existing

/-- C4 counterexample: merge-importing `[well-formed, malformed]` into an
empty learner reports failure, yet the in-memory sequence now holds the
first entry — the pre-call state is not preserved. -/
theorem import_malformed_mutates_counterexample :
    (import_data_raw [] (some [some ⟨⟨0, 0, 0⟩, "a", "b", "t1"⟩, none])).2 =
      false ∧
    (import_data_raw [] (some [some ⟨⟨0, 0, 0⟩, "a", "b", "t1"⟩, none])).1 =
      [⟨⟨0, 0, 0⟩, "a", "b", "t1"⟩] ∧
    [⟨⟨0, 0, 0⟩, "a", "b", "t1"⟩] ≠ ([] : List Correction) := by
  decide

lemma parseAll_export (corrs : List Correction) :
    parseAll (export_data corrs) = some corrs := by
  induction corrs with
  | nil => rfl
  | cons corr rest ih =>
    simp only [export_data, List.map_cons] at ih ⊢
    rw [parseAll, ih]
    rfl

/-- C6: exporting the in-memory correction sequence to the documented
JSON shape and re-importing that file with merge=false reproduces the
identical in-memory sequence, in order and content, and reports
success. -/
theorem export_import_roundtrip (corrs : List Correction) :
    import_replace corrs (some (export_data corrs)) = (corrs, true) := by
  rw [import_replace, parseAll_export]

lemma mcFold_mem (cnt : List Pixel) (l : List Pixel) :
    ∀ (acc : Option (Pixel × Nat)) (y : Pixel) (n : Nat),
      l.foldl (mcStep cnt) acc = some (y, n) → acc = some (y, n) ∨ y ∈ l := by
  induction l with
  | nil =>
    intro acc y n h
    exact Or.inl h
  | cons x l ih =>
    intro acc y n h
    rcases ih (mcStep cnt acc x) y n h with h' | h'
    · cases acc with
      | none =>
        simp [mcStep] at h'
        exact Or.inr (h'.1 ▸ List.mem_cons_self x l)
      | some p =>
        by_cases hc : cnt.count x > p.2
        · simp [mcStep, hc] at h'
          exact Or.inr (h'.1 ▸ List.mem_cons_self x l)
        · simp [mcStep, hc] at h'
          exact Or.inl (by rw [h'])
    · exact Or.inr (List.mem_cons_of_mem x h')

lemma mostCommon_mem {l : List Pixel} {x : Pixel}
    (h : mostCommon l = some x) : x ∈ l := by
  rw [mostCommon] at h
  obtain ⟨⟨y, n⟩, hfold, hyx⟩ := Option.map_eq_some'.mp h
  rcases mcFold_mem l l none y n hfold with h' | h'
  · exact absurd h' (by simp)
  · exact hyx ▸ h'

/-- C10: whenever dominant-color extraction succeeds on 8-bit pixel data,
every channel of the returned color is a multiple of 16 in [0, 240]
(it is a quantized pixel of the image); the average-color fallback
carries no such guarantee — the concrete one-pixel image (8,8,8)
averages to (8,8,8), whose channels are not multiples of 16. -/
theorem dominant_color_quantized :
    (∀ (ps : List Pixel) (c : Pixel),
        (∀ p ∈ ps, p.r ≤ 255 ∧ p.g ≤ 255 ∧ p.b ≤ 255) →
        get_dominant_color (some ps) = some c →
        (c.r % 16 = 0 ∧ c.g % 16 = 0 ∧ c.b % 16 = 0) ∧
          c.r ≤ 240 ∧ c.g ≤ 240 ∧ c.b ≤ 240) ∧
    (get_avg_color (some [⟨8, 8, 8⟩]) = some ⟨8, 8, 8⟩ ∧ (8 : Nat) % 16 ≠ 0) := by
  constructor
  · intro ps c hbound h
    rw [get_dominant_color] at h
    have hc := mostCommon_mem h
    obtain ⟨p, hp, hpc⟩ := List.mem_map.mp hc
    obtain ⟨hr, hg, hb⟩ := hbound p hp
    have hcr : c.r = p.r / 16 * 16 := by rw [← hpc]; rfl
    have hcg : c.g = p.g / 16 * 16 := by rw [← hpc]; rfl
    have hcb : c.b = p.b / 16 * 16 := by rw [← hpc]; rfl
    refine ⟨⟨?_, ?_, ?_⟩, ?_, ?_, ?_⟩ <;> omega
  · exact ⟨by decide, by decide⟩

end OmarchyMover
